import Mathlib

/-!
Formal model of `libcontainer/configs/config.go`: the CPU set builder
(`toCPUSet`, `ConvertCPUAffinity`), the scheduler attribute translator
(`ToSchedAttr`), and the hook registry (`Hooks.Run`, JSON
marshalling/unmarshalling, `HookList.SetDefaultEnv`, `Command.Run`).

Go strings are modelled as `String`/`List Char` (the specs involved are
ASCII); Go maps keyed by strings are modelled as association lists read
through a first-match lookup (`hLookup`), so that two maps are equal
exactly when every lookup agrees.  Machine integers are modelled as
`Nat`/`Int` with explicit `% 2 ^ 32` where the code converts between
widths.  Fallible Go functions returning `(T, error)` are modelled as
`Except` with structured error values that carry exactly the data the
corresponding `fmt.Errorf` format interpolates.
-/

instance {ε α : Type} [DecidableEq ε] [DecidableEq α] : DecidableEq (Except ε α) := fun x y =>
  match x, y with
  | .error a, .error b =>
    if h : a = b then .isTrue (congrArg Except.error h)
    else .isFalse (fun hc => h (Except.error.inj hc))
  | .error _, .ok _ => .isFalse (fun hc => Except.noConfusion hc)
  | .ok _, .error _ => .isFalse (fun hc => Except.noConfusion hc)
  | .ok a, .ok b =>
    if h : a = b then .isTrue (congrArg Except.ok h)
    else .isFalse (fun hc => h (Except.ok.inj hc))

namespace Configs

/-! ## CPU Set Builder (`toCPUSet`, `ConvertCPUAffinity`) -/

/-- Width in bits of `unix.CPUSet`, i.e. `unsafe.Sizeof(*s) * 8` in
`toCPUSet`: on Linux the native CPU mask is 128 bytes = 1024 bits. -/
def maxCPU : Nat := 1024

/-- A CPU set, modelling `unix.CPUSet` (a fixed 1024-bit mask) as the
finite set of indices of its set bits. -/
abbrev CPUSet := Finset Nat

/-- Models `(*unix.CPUSet).Set(i)`: sets bit `i`, silently ignoring
values that do not fit in the mask (the behaviour the Go comment in
`toCPUSet` warns about). -/
def CPUSet.set (s : CPUSet) (i : Nat) : CPUSet :=
  if i < maxCPU then insert i s else s

/-- Error result of `strconv.ParseUint(v, 10, 32)`: either the string is
not a decimal numeral, or its value does not fit in 32 bits. -/
inductive ParseErr where
  | notNumeric
  | outOfRange
  deriving DecidableEq

/-- Errors produced by `toCPUSet`.  Each constructor carries exactly the
data interpolated into the corresponding Go error message. -/
inductive CPUErr where
  | parse (e : ParseErr)
  | tooLarge (limit : Nat)
  | invalidRange (segment : List Char)
  | noCPUs (input : String)
  deriving DecidableEq

/-- Character class trimmed by `strings.TrimSpace` (ASCII part:
space and the control characters tab through carriage return). -/
def isSpaceChar (c : Char) : Bool :=
  c.toNat = 32 || (9 ≤ c.toNat && c.toNat ≤ 13)

/-- Models `strings.TrimSpace`: drop leading and trailing whitespace. -/
def trimSpace (s : List Char) : List Char :=
  ((s.dropWhile isSpaceChar).reverse.dropWhile isSpaceChar).reverse

/-- Models `strings.Split(str, ",")`: split into comma-separated
segments; the empty string yields one empty segment. -/
def splitOnComma : List Char → List (List Char)
  | [] => [[]]
  | x :: xs =>
    if x = ',' then [] :: splitOnComma xs
    else
      match splitOnComma xs with
      | [] => [[x]]
      | seg :: rest => (x :: seg) :: rest

/-- Models `strings.Cut(r, "-")`: the parts before and after the first
dash, or `none` if there is no dash. -/
def cutDash : List Char → Option (List Char × List Char)
  | [] => none
  | x :: xs =>
    if x = '-' then some ([], xs)
    else
      match cutDash xs with
      | none => none
      | some (a, b) => some (x :: a, b)

/-- ASCII decimal digit test (Go `strconv` accepts exactly `0`-`9` in
base 10). -/
def isDigitChar (c : Char) : Bool :=
  48 ≤ c.toNat && c.toNat ≤ 57

/-- Value of a string of decimal digits. -/
def digitsToNat (s : List Char) : Nat :=
  s.foldl (fun n c => n * 10 + (c.toNat - 48)) 0

/-- Models `strconv.ParseUint(v, 10, 32)`: the string must be a
non-empty run of decimal digits whose value fits in 32 bits. -/
def parseUint32 (v : List Char) : Except ParseErr Nat :=
  if v = [] then .error .notNumeric
  else if ¬ v.all isDigitChar then .error .notNumeric
  else if digitsToNat v ≥ 2 ^ 32 then .error .outOfRange
  else .ok (digitsToNat v)

/-- The `toInt` closure inside `toCPUSet`: parse an unsigned 32-bit
numeral, then reject values that do not fit in the CPU mask with an
error naming the largest supported index (`maxCPU - 1`). -/
def toInt (v : List Char) : Except CPUErr Nat :=
  match parseUint32 v with
  | .error e => .error (.parse e)
  | .ok n =>
    if n ≥ maxCPU then .error (.tooLarge (maxCPU - 1))
    else .ok n

/-- The `for i := start; i <= end; i++ { s.Set(i) }` loop of
`toCPUSet`. -/
def setRange (s : CPUSet) (start stop : Nat) : CPUSet :=
  (List.range' start (stop + 1 - start)).foldl CPUSet.set s

/-- The `for _, r := range strings.Split(str, ",")` loop of `toCPUSet`:
trim each segment, skip blank segments, and handle a `start-end` range
or a single value, failing fast on the first bad segment. -/
def processSegments : List (List Char) → CPUSet → Except CPUErr CPUSet
  | [], s => .ok s
  | r :: rest, s =>
    let r' := trimSpace r
    if r' = [] then processSegments rest s
    else
      match cutDash r' with
      | some (r0, r1) =>
        match toInt r0 with
        | .error e => .error e
        | .ok start =>
          match toInt r1 with
          | .error e => .error e
          | .ok stop =>
            if start > stop then .error (.invalidRange r')
            else processSegments rest (setRange s start stop)
      | none =>
        match toInt r' with
        | .error e => .error e
        | .ok v => processSegments rest (s.set v)

/-- Models `toCPUSet`: the empty spec means "no set requested"
(`.ok none`); otherwise process all comma-separated segments and fail
if no bit ended up set. -/
def toCPUSet (str : String) : Except CPUErr (Option CPUSet) :=
  if str = "" then .ok none
  else
    match processSegments (splitOnComma str.data) ∅ with
    | .error e => .error e
    | .ok s => if s.card = 0 then .error (.noCPUs str) else .ok (some s)

/-- Models `specs.CPUAffinity`: the textual `initial`/`final` pair. -/
structure SpecsCPUAffinity where
  initial : String
  final : String
  deriving DecidableEq

/-- Models `configs.CPUAffinity`: the two independently built sets
(each `nil`-able, as in the Go struct of two `*unix.CPUSet`). -/
structure CPUAffinity where
  initial : Option CPUSet
  final : Option CPUSet
  deriving DecidableEq

/-- Errors of `ConvertCPUAffinity`: a `toCPUSet` error wrapped with the
side (`Initial` or `Final`) that failed. -/
inductive AffErr where
  | badInitial (e : CPUErr)
  | badFinal (e : CPUErr)
  deriving DecidableEq

/-- Models `ConvertCPUAffinity`: absent input passes through; each side
is built independently; errors are wrapped with the failing side; if
both sides built to nothing the result is absent, never an empty
struct. -/
def ConvertCPUAffinity : Option SpecsCPUAffinity → Except AffErr (Option CPUAffinity)
  | none => .ok none
  | some sa =>
    match toCPUSet sa.initial with
    | .error e => .error (.badInitial e)
    | .ok ini =>
      match toCPUSet sa.final with
      | .error e => .error (.badFinal e)
      | .ok fin =>
        if ini = none ∧ fin = none then .ok none
        else .ok (some ⟨ini, fin⟩)

/-! ## Scheduler Attribute Translator (`ToSchedAttr`) -/

/-- Models `specs.Scheduler`: abstract policy name, flag names, and the
numeric fields.  `nice` and `priority` are `int32` in Go, the last
three fields `uint64`. -/
structure Scheduler where
  policy : String
  nice : Int
  priority : Int
  flags : List String
  runtime : Nat
  deadline : Nat
  period : Nat
  deriving DecidableEq

/-- Models `unix.SchedAttr`, the raw `sched_setattr(2)` request
structure; `size` and `policy` and `priority` are `uint32`, `flags` and
the last three fields `uint64`, `nice` is `int32`. -/
structure SchedAttr where
  size : Nat
  policy : Nat
  flags : Nat
  nice : Int
  priority : Nat
  runtime : Nat
  deadline : Nat
  period : Nat
  deriving DecidableEq

/-- Errors of `ToSchedAttr`, carrying the offending token. -/
inductive SchedErr where
  | invalidPolicy (token : String)
  | invalidFlag (token : String)
  deriving DecidableEq

/-- The fixed ABI constant `unix.SizeofSchedAttr` (0x38 bytes). -/
def sizeofSchedAttr : Nat := 56

/-- Go's `uint32(x)` conversion of a signed value: reduction modulo
`2 ^ 32`. -/
def uint32Of (i : Int) : Nat := (i % (4294967296 : Int)).toNat

/-- The policy-name switch of `ToSchedAttr`: the seven policy names in
source order map to the sequential codes 0-6. -/
def policyCode : String → Option Nat
  | "SCHED_OTHER" => some 0
  | "SCHED_FIFO" => some 1
  | "SCHED_RR" => some 2
  | "SCHED_BATCH" => some 3
  | "SCHED_ISO" => some 4
  | "SCHED_IDLE" => some 5
  | "SCHED_DEADLINE" => some 6
  | _ => none

/-- The flag-name switch of `ToSchedAttr`: the seven flag names in
source order map to the single-bit values 0x01 .. 0x40. -/
def schedFlagBit : String → Option Nat
  | "SCHED_FLAG_RESET_ON_FORK" => some 0x01
  | "SCHED_FLAG_RECLAIM" => some 0x02
  | "SCHED_FLAG_DL_OVERRUN" => some 0x04
  | "SCHED_FLAG_KEEP_POLICY" => some 0x08
  | "SCHED_FLAG_KEEP_PARAMS" => some 0x10
  | "SCHED_FLAG_UTIL_CLAMP_MIN" => some 0x20
  | "SCHED_FLAG_UTIL_CLAMP_MAX" => some 0x40
  | _ => none

/-- The `for _, flag := range scheduler.Flags` loop of `ToSchedAttr`:
OR each recognised flag's bit into the accumulator, failing on the
first unrecognised flag name. -/
def schedFlags : List String → Nat → Except SchedErr Nat
  | [], acc => .ok acc
  | f :: rest, acc =>
    match schedFlagBit f with
    | some b => schedFlags rest (acc ||| b)
    | none => .error (.invalidFlag f)

/-- Models `ToSchedAttr`: translate the policy name, fold the flag
names, and build the kernel attribute record with the fixed `size`
constant and the numeric fields (the priority going through Go's
`uint32(...)` conversion). -/
def ToSchedAttr (s : Scheduler) : Except SchedErr SchedAttr :=
  match policyCode s.policy with
  | none => .error (.invalidPolicy s.policy)
  | some p =>
    match schedFlags s.flags 0 with
    | .error e => .error e
    | .ok fl =>
      .ok { size := sizeofSchedAttr, policy := p, flags := fl, nice := s.nice,
            priority := uint32Of s.priority, runtime := s.runtime,
            deadline := s.deadline, period := s.period }

/-! ## Hook data model -/

/-- Models `specs.State`, the snapshot handed to every hook.  The exact
field set is owned by the runtime-spec collaborator; hooks receive it
opaquely, so a representative record suffices. -/
structure SpecsState where
  version : String
  id : String
  status : String
  pid : Int
  bundle : String

/-- Models `configs.Command`: the persisted record of a command hook.
`timeout` is an optional `time.Duration` (int64 nanoseconds). -/
structure Command where
  path : String
  args : List String
  env : List String
  dir : String
  timeout : Option Int
  deriving DecidableEq

/-- Models the `configs.Hook` interface with its two implementations:
an in-process `FuncHook` callback (returning `none` for success) and a
`CommandHook` wrapping a `Command`. -/
inductive Hook where
  | func (f : SpecsState → Option String)
  | command (cmd : Command)

/-- Models `configs.HookList`. -/
abbrev HookList := List Hook

/-- Models `configs.Hooks` (`map[HookName]HookList`) as an association
list read only through `hLookup`. -/
abbrev Hooks := List (String × HookList)

/-- First-match association-list lookup; the reading discipline for all
Go maps in this model. -/
def hLookup {α : Type} : List (String × α) → String → Option α
  | [], _ => none
  | (k, v) :: rest, n => if k = n then some v else hLookup rest n

/-- Go map read `hooks[name]`: an absent key yields the zero value, the
empty list. -/
def Hooks.get (hooks : Hooks) (name : String) : HookList :=
  (hLookup hooks name).getD []

/-- The six fixed lifecycle event names, in the order `MarshalJSON`
emits them. -/
def eventNames : List String :=
  ["prestart", "createRuntime", "createContainer", "startContainer",
   "poststart", "poststop"]

/-- The type test `hook.(CommandHook)` of the serializer: the command
payload of a hook, if it is a command hook. -/
def Hook.commandOf : Hook → Option Command
  | .command c => some c
  | .func _ => none

/-- The `serialize` closure of `Hooks.MarshalJSON`: keep the command
hooks, in order; a function hook is skipped (with a log diagnostic in
Go that does not affect the result). -/
def serialize (hooks : HookList) : List Command :=
  hooks.filterMap Hook.commandOf

/-- Models `Hooks.MarshalJSON`: the emitted JSON object, one entry per
fixed event name (an empty list standing for Go's `nil` slice /
JSON `null`).  Marshalling cannot fail. -/
def Hooks.marshal (hooks : Hooks) : List (String × List Command) :=
  eventNames.map (fun n => (n, serialize (hooks.get n)))

/-- Models `Hooks.UnmarshalJSON` applied to a decoded
`map[HookName][]CommandHook`: entries with zero command hooks are
dropped, the rest become lists of command hooks. -/
def Hooks.unmarshal (state : List (String × List Command)) : Hooks :=
  (state.filter (fun p => !p.2.isEmpty)).map
    (fun p => (p.1, p.2.map Hook.command))

/-- Error wrapper built by `Hooks.Run`:
`fmt.Errorf("error running %s hook #%d: %w", name, i, err)`. -/
structure RunErr where
  name : String
  index : Nat
  inner : String
  deriving DecidableEq

/-- Rendering of a `RunErr`, mirroring the Go format string. -/
def RunErr.message (e : RunErr) : String :=
  "error running " ++ e.name ++ " hook #" ++ Nat.repr e.index ++ ": " ++ e.inner

/-- Execution of one hook: a function hook is a direct call; a command
hook's behaviour is supplied by the `exec` oracle standing for
`Command.Run` (which spawns a process). -/
def Hook.runWith (exec : Command → SpecsState → Option String) :
    Hook → SpecsState → Option String
  | .func f, st => f st
  | .command c, st => exec c st

/-- The indexed loop of `Hooks.Run`: run each hook in order starting at
index `i`, stopping at the first failure and wrapping its error with
the event name and the hook's 0-based index. -/
def HookList.runFrom (exec : Command → SpecsState → Option String)
    (name : String) (st : SpecsState) : HookList → Nat → Option RunErr
  | [], _ => none
  | h :: rest, i =>
    match h.runWith exec st with
    | some e => some ⟨name, i, e⟩
    | none => HookList.runFrom exec name st rest (i + 1)

/-- Models `Hooks.Run(name, state)`: look up the event's list (absent
means empty) and run it in order from index 0. -/
def Hooks.run (exec : Command → SpecsState → Option String)
    (hooks : Hooks) (name : String) (st : SpecsState) : Option RunErr :=
  HookList.runFrom exec name st (hooks.get name) 0

/-- Models `HookList.SetDefaultEnv(env)`: give every command hook whose
environment is unset the supplied default; hooks with an environment,
and function hooks, are untouched.  (In Go the update is an in-place
write through the hook's embedded `*Command`; the list after the call
is the list modelled here.) -/
def HookList.setDefaultEnv : HookList → List String → HookList
  | [], _ => []
  | h :: rest, env =>
    (match h with
     | .command c =>
       if c.env = [] then .command { c with env := env } else .command c
     | hk => hk) :: HookList.setDefaultEnv rest env

/-! ## Command hook execution (`Command.Run`) -/

/-- Observable events of one `Command.Run` call, in order: the process
was started, it was forcibly killed, and its exit was observed
(`cmd.Wait` / draining `errC`). -/
inductive CmdEvent where
  | started
  | killed
  | reaped
  deriving DecidableEq

/-- Results of `Command.Run`: the state snapshot failed to serialize;
the process failed to start; the process exited with an error,
annotated with the captured stdout/stderr text
(`fmt.Errorf("%w, stdout: %s, stderr: %s", ...)`); or the configured
timeout elapsed (`fmt.Errorf("hook ran past specified timeout ...")`,
carrying the configured duration). -/
inductive CmdErr where
  | marshalFail (e : String)
  | startFail (e : String)
  | execFail (e : String) (stdout stderr : String)
  | timeoutFail (duration : Int)
  deriving DecidableEq

/-- Environment oracle for one `Command.Run` call: outcomes of the
state-snapshot serialization, of `cmd.Start()`, and of `cmd.Wait()`
(exit error plus captured output), and which side of the `select` race
fires first when a timer is armed.  `timerFirst` is consulted only when
a timeout is configured: with no timeout the timer channel is Go's nil
channel, which never fires. -/
structure ProcBehavior where
  marshalErr : Option String
  startErr : Option String
  exitErr : Option String
  stdout : String
  stderr : String
  timerFirst : Bool

/-- Models `Command.Run(s)`: serialize the state, start the process,
then race process exit against the optional timer.  Returns the result
together with the ordered trace of process-lifecycle events. -/
def Command.run (c : Command) (w : ProcBehavior) :
    Option CmdErr × List CmdEvent :=
  match w.marshalErr with
  | some e => (some (.marshalFail e), [])
  | none =>
    match w.startErr with
    | some e => (some (.startFail e), [])
    | none =>
      let waitRes : Option CmdErr :=
        w.exitErr.map (fun e => .execFail e w.stdout w.stderr)
      match c.timeout with
      | none => (waitRes, [.started, .reaped])
      | some d =>
        if w.timerFirst then
          (some (.timeoutFail d), [.started, .killed, .reaped])
        else (waitRes, [.started, .reaped])

/-! ## Helper lemmas: CPU set builder -/

lemma processSegments_blank (segs : List (List Char)) (s : CPUSet)
    (h : ∀ r ∈ segs, trimSpace r = []) : processSegments segs s = .ok s := by
  induction segs with
  | nil => rfl
  | cons r rest ih =>
    have hr : trimSpace r = [] := h r (List.mem_cons_self r rest)
    simp only [processSegments, hr, if_pos rfl]
    exact ih (fun g hg => h g (List.mem_cons_of_mem _ hg))

lemma processSegments_skip (pre post : List (List Char)) (ws : List Char)
    (s : CPUSet) (hws : trimSpace ws = []) :
    processSegments (pre ++ ws :: post) s = processSegments (pre ++ post) s := by
  induction pre generalizing s with
  | nil =>
    simp [processSegments, hws]
  | cons r pre' ih =>
    by_cases h0 : trimSpace r = []
    · simp [processSegments, h0, ih]
    · simp only [List.cons_append, processSegments]
      rw [if_neg h0, if_neg h0]
      cases hcd : cutDash (trimSpace r) with
      | none =>
        cases hti : toInt (trimSpace r) with
        | error e => simp only [hti]
        | ok v =>
          simp only [hti]
          exact ih (s.set v)
      | some p =>
        obtain ⟨r0, r1⟩ := p
        cases ht0 : toInt r0 with
        | error e => simp only [ht0]
        | ok a =>
          cases ht1 : toInt r1 with
          | error e => simp only [ht0, ht1]
          | ok b =>
            simp only [ht0, ht1]
            by_cases hab : a > b
            · simp [hab]
            · simp only [if_neg hab]
              exact ih (setRange s a b)

lemma mem_foldl_set (l : List Nat) (s : CPUSet) (x : Nat) :
    x ∈ l.foldl CPUSet.set s ↔ x ∈ s ∨ (x ∈ l ∧ x < maxCPU) := by
  induction l generalizing s with
  | nil => simp
  | cons a l ih =>
    simp only [List.foldl_cons, ih, CPUSet.set, List.mem_cons]
    by_cases ha : a < maxCPU
    · simp only [if_pos ha, Finset.mem_insert]
      constructor
      · rintro ((rfl | hs) | hl)
        · exact Or.inr ⟨Or.inl rfl, ha⟩
        · exact Or.inl hs
        · exact Or.inr ⟨Or.inr hl.1, hl.2⟩
      · rintro (hs | ⟨(rfl | hl), hx⟩)
        · exact Or.inl (Or.inr hs)
        · exact Or.inl (Or.inl rfl)
        · exact Or.inr ⟨hl, hx⟩
    · simp only [if_neg ha]
      constructor
      · rintro (hs | hl)
        · exact Or.inl hs
        · exact Or.inr ⟨Or.inr hl.1, hl.2⟩
      · rintro (hs | ⟨(rfl | hl), hx⟩)
        · exact Or.inl hs
        · exact absurd hx ha
        · exact Or.inr ⟨hl, hx⟩

lemma setRange_eq (s : CPUSet) (a b : Nat) (hb : b < maxCPU) :
    setRange s a b = s ∪ Finset.Icc a b := by
  ext x
  rw [setRange, mem_foldl_set, Finset.mem_union, Finset.mem_Icc,
    List.mem_range'_1]
  refine or_congr Iff.rfl ?_
  omega

lemma cutDash_ne_nil {r : List Char} {p : List Char × List Char}
    (h : cutDash r = some p) : r ≠ [] := by
  intro hr
  subst hr
  simp [cutDash] at h

/-! ## Claim theorems: CPU set builder -/

/-- Claim C4 (amended): every integer value in a CPU-spec segment that
parses as a 32-bit unsigned numeral is accepted exactly when it is
below the mask width `maxCPU` (1024), and rejected otherwise with the
error naming the limit `maxCPU - 1` (1023); numerals of value at least
`2 ^ 32` are rejected by the integer parser with a range error instead;
concretely `1023` is accepted and `1024` is rejected with the
limit-naming error. -/
theorem C4_cpu_value_limit :
    (∀ (v : List Char) (n : Nat), parseUint32 v = .ok n →
      toInt v = if n < maxCPU then .ok n
        else .error (.tooLarge (maxCPU - 1))) ∧
    (∀ (v : List Char), v ≠ [] → v.all isDigitChar = true →
      digitsToNat v ≥ 2 ^ 32 → toInt v = .error (.parse .outOfRange)) ∧
    toCPUSet "1023" = .ok (some {1023}) ∧
    toCPUSet "1024" = .error (.tooLarge 1023) := by
  refine ⟨?_, ?_, by decide, by decide⟩
  · intro v n h
    simp only [toInt, h]
    by_cases h' : n < maxCPU
    · rw [if_neg (show ¬ n ≥ maxCPU by omega), if_pos h']
    · rw [if_pos (show n ≥ maxCPU by omega), if_neg h']
  · intro v hv hall hbig
    simp [toInt, parseUint32, hv, hall,
      show (4294967296 : ℕ) ≤ digitsToNat v from hbig]

/-- Claim C4 counterexample: the value `4294967296` (= 2^32) appears in
a segment and is at least the mask width, but the error returned is the
integer parser's range error, which does not name the limit — it is a
different error value than the limit-naming `tooLarge` error the claim
requires for every too-large value. -/
theorem C4_counterexample :
    toCPUSet "4294967296" = .error (.parse .outOfRange) ∧
    CPUErr.parse .outOfRange ≠ CPUErr.tooLarge (maxCPU - 1) := by
  refine ⟨by decide, by decide⟩

/-- Claim C4 witness: concrete boundary instances of the general
clauses — `1023` parses and is accepted, `1024` parses and is rejected
with the limit-naming error. -/
theorem C4_cpu_value_limit_witness :
    toInt "1023".data = .ok 1023 ∧
    toInt "1024".data = .error (.tooLarge 1023) := by
  constructor
  · have h := C4_cpu_value_limit.1 "1023".data 1023 (by decide)
    simpa using h
  · have h := C4_cpu_value_limit.1 "1024".data 1024 (by decide)
    simpa using h

/-- Claim C5: the empty spec is the distinct "no set requested" case
and returns an absent result without error; any non-empty spec all of
whose segments trim to blank (such as `" , "`) fails with the
`noCPUs` error naming the input; and a blank segment anywhere in the
segment list is skipped silently, leaving the outcome unchanged. -/
theorem C5_empty_vs_blank :
    toCPUSet "" = .ok none ∧
    toCPUSet " , " = .error (.noCPUs " , ") ∧
    (∀ (str : String), str ≠ "" →
      (∀ r ∈ splitOnComma str.data, trimSpace r = []) →
      toCPUSet str = .error (.noCPUs str)) ∧
    (∀ (pre post : List (List Char)) (ws : List Char) (s : CPUSet),
      trimSpace ws = [] →
      processSegments (pre ++ ws :: post) s =
        processSegments (pre ++ post) s) := by
  refine ⟨by decide, by decide, ?_, ?_⟩
  · intro str hstr hall
    rw [toCPUSet, if_neg hstr, processSegments_blank _ _ hall]
    simp
  · intro pre post ws s hws
    exact processSegments_skip pre post ws s hws

/-- Claim C5 witness: the general blank-spec clause applied to the
concrete input `" , "`, and the skip clause applied around a
whitespace-only segment. -/
theorem C5_empty_vs_blank_witness :
    toCPUSet " , " = .error (.noCPUs " , ") ∧
    processSegments (["2".data] ++ " ".data :: ["3".data]) ∅ =
      processSegments (["2".data] ++ ["3".data]) ∅ := by
  constructor
  · exact C5_empty_vs_blank.2.2.1 " , " (by decide) (by decide)
  · exact C5_empty_vs_blank.2.2.2 ["2".data] ["3".data] " ".data ∅
      (by decide)

/-- Claim C9: a range segment `a-b` whose two sides parse is rejected
with the invalid-range error exactly when `a > b`, and otherwise sets
exactly the bits of the inclusive interval `[a, b]` on top of the bits
already set; a degenerate range equals the bare scalar
(`"2-2"` parses the same as `"2"`); and parsing is deterministic. -/
theorem C9_range_semantics :
    (∀ (r r0 r1 : List Char) (a b : Nat) (rest : List (List Char))
      (s : CPUSet), trimSpace r = r → cutDash r = some (r0, r1) →
      toInt r0 = .ok a → toInt r1 = .ok b →
      processSegments (r :: rest) s =
        if a > b then .error (.invalidRange r)
        else processSegments rest (setRange s a b)) ∧
    (∀ (s : CPUSet) (a b : Nat), b < maxCPU →
      setRange s a b = s ∪ Finset.Icc a b) ∧
    toCPUSet "2-2" = toCPUSet "2" ∧
    toCPUSet "2-2" = .ok (some {2}) ∧
    (∀ (str : String), toCPUSet str = toCPUSet str) := by
  refine ⟨?_, ?_, by decide, by decide, fun _ => rfl⟩
  · intro r r0 r1 a b rest s htrim hcd h0 h1
    have hr : r ≠ [] := cutDash_ne_nil hcd
    simp only [processSegments, htrim, if_neg hr, hcd, h0, h1]
  · intro s a b hb
    exact setRange_eq s a b hb

/-- Claim C9 witness: the range clause applied to the concrete inverted
range `"5-2"` (rejected) and the interval clause applied to `0-3`. -/
theorem C9_range_semantics_witness :
    processSegments ["5-2".data] ∅ =
      .error (.invalidRange "5-2".data) ∧
    setRange ∅ 0 3 = (∅ : CPUSet) ∪ Finset.Icc 0 3 := by
  constructor
  · have h := C9_range_semantics.1 "5-2".data "5".data "2".data 5 2 [] ∅
      (by decide) (by decide) (by decide) (by decide)
    simpa using h
  · exact C9_range_semantics.2.1 ∅ 0 3 (by decide)

/-- Claim C8: `ConvertCPUAffinity` maps an absent input, or a pair of
two empty specs, to an absent result with no error; an error from
either side is wrapped with that side's name; and when both sides
build, the result holds the two independently built sets. -/
theorem C8_convert_affinity :
    ConvertCPUAffinity none = .ok none ∧
    ConvertCPUAffinity (some ⟨"", ""⟩) = .ok none ∧
    (∀ (sa : SpecsCPUAffinity) (e : CPUErr),
      toCPUSet sa.initial = .error e →
      ConvertCPUAffinity (some sa) = .error (.badInitial e)) ∧
    (∀ (sa : SpecsCPUAffinity) (v : Option CPUSet) (e : CPUErr),
      toCPUSet sa.initial = .ok v → toCPUSet sa.final = .error e →
      ConvertCPUAffinity (some sa) = .error (.badFinal e)) ∧
    (∀ (sa : SpecsCPUAffinity) (vi vf : Option CPUSet),
      toCPUSet sa.initial = .ok vi → toCPUSet sa.final = .ok vf →
      (vi = none ∧ vf = none →
        ConvertCPUAffinity (some sa) = .ok none) ∧
      (¬ (vi = none ∧ vf = none) →
        ConvertCPUAffinity (some sa) = .ok (some ⟨vi, vf⟩))) := by
  refine ⟨rfl, by decide, ?_, ?_, ?_⟩
  · intro sa e h
    simp only [ConvertCPUAffinity, h]
  · intro sa v e hi hf
    simp only [ConvertCPUAffinity, hi, hf]
  · intro sa vi vf hi hf
    constructor
    · intro hnone
      simp only [ConvertCPUAffinity, hi, hf, if_pos hnone]
    · intro hne
      simp only [ConvertCPUAffinity, hi, hf, if_neg hne]

/-- Claim C8 witness: the side-wrapping clause applied to a pair whose
initial spec is the invalid range `"5-2"`, and the build clause applied
to the pair `("2", "")`. -/
theorem C8_convert_affinity_witness :
    ConvertCPUAffinity (some ⟨"5-2", ""⟩) =
      .error (.badInitial (.invalidRange "5-2".data)) ∧
    ConvertCPUAffinity (some ⟨"2", ""⟩) =
      .ok (some ⟨some {2}, none⟩) := by
  constructor
  · exact C8_convert_affinity.2.2.1 ⟨"5-2", ""⟩
      (.invalidRange "5-2".data) (by decide)
  · exact (C8_convert_affinity.2.2.2.2 ⟨"2", ""⟩ (some {2}) none
      (by decide) (by decide)).2 (by simp)

/-! ## Helper lemmas: scheduler translator -/

lemma schedFlags_eq_foldl (l : List String) :
    (∀ f ∈ l, (schedFlagBit f).isSome) → ∀ acc : Nat,
    schedFlags l acc =
      .ok (l.foldl (fun a f => a ||| (schedFlagBit f).getD 0) acc) := by
  induction l with
  | nil => intro _ acc; rfl
  | cons f rest ih =>
    intro hv acc
    have hf := hv f (List.mem_cons_self f rest)
    cases hb : schedFlagBit f with
    | none => rw [hb] at hf; simp at hf
    | some b =>
      simp only [schedFlags, hb, List.foldl_cons, Option.getD_some]
      exact ih (fun g hg => hv g (List.mem_cons_of_mem _ hg)) (acc ||| b)

lemma schedFlags_perm {l₁ l₂ : List String} (h : l₁.Perm l₂) :
    (∀ f ∈ l₁, (schedFlagBit f).isSome) → ∀ acc : Nat,
    schedFlags l₁ acc = schedFlags l₂ acc := by
  induction h with
  | nil => intro _ _; rfl
  | cons x h ih =>
    intro hv acc
    have hx := hv x (List.mem_cons_self x _)
    cases hb : schedFlagBit x with
    | none => rw [hb] at hx; simp at hx
    | some b =>
      simp only [schedFlags, hb]
      exact ih (fun g hg => hv g (List.mem_cons_of_mem _ hg)) (acc ||| b)
  | swap x y l =>
    intro hv acc
    have hx := hv x (by simp)
    have hy := hv y (by simp)
    cases hbx : schedFlagBit x with
    | none => rw [hbx] at hx; simp at hx
    | some bx =>
      cases hby : schedFlagBit y with
      | none => rw [hby] at hy; simp at hy
      | some b2 =>
        simp only [schedFlags, hbx, hby]
        have : acc ||| b2 ||| bx = acc ||| bx ||| b2 := by
          rw [Nat.or_assoc, Nat.or_assoc, Nat.or_comm b2 bx]
        rw [this]
  | trans h₁ h₂ ih₁ ih₂ =>
    intro hv acc
    rw [ih₁ hv acc, ih₂ (fun f hf => hv f (h₁.mem_iff.mpr hf)) acc]

lemma schedFlags_err (l : List String) :
    (∃ f ∈ l, schedFlagBit f = none) → ∀ acc : Nat,
    ∃ f ∈ l, schedFlagBit f = none ∧
      schedFlags l acc = .error (.invalidFlag f) := by
  induction l with
  | nil => intro hbad; simp at hbad
  | cons g rest ih =>
    intro hbad acc
    cases hb : schedFlagBit g with
    | none =>
      exact ⟨g, List.mem_cons_self g rest, hb, by simp [schedFlags, hb]⟩
    | some b =>
      have hbad' : ∃ f ∈ rest, schedFlagBit f = none := by
        obtain ⟨f, hf, hfn⟩ := hbad
        rcases List.mem_cons.mp hf with rfl | hf'
        · rw [hb] at hfn; cases hfn
        · exact ⟨f, hf', hfn⟩
      obtain ⟨f, hf, hfn, hres⟩ := ih hbad' (acc ||| b)
      exact ⟨f, List.mem_cons_of_mem _ hf, hfn,
        by simp [schedFlags, hb, hres]⟩

/-! ## Claim theorems: scheduler translator -/

/-- Claim C1 (amended): `ToSchedAttr` maps the seven policy names to
the sequential codes 0-6 in source order and the seven flag names to
the single-bit values 0x01 through 0x40, combined by bitwise OR
independently of their order when all flags are recognised; on success
the `size` field is always the fixed ABI constant, `nice`, `runtime`,
`deadline` and `period` pass through unchanged, and `priority` passes
through reduced modulo `2 ^ 32` (Go's `uint32(...)` conversion of the
signed input); an unrecognised policy name, or any unrecognised flag
name under a recognised policy, is a hard error carrying an offending
token. -/
theorem C1_to_sched_attr (s : Scheduler) :
    (policyCode "SCHED_OTHER" = some 0 ∧ policyCode "SCHED_FIFO" = some 1 ∧
     policyCode "SCHED_RR" = some 2 ∧ policyCode "SCHED_BATCH" = some 3 ∧
     policyCode "SCHED_ISO" = some 4 ∧ policyCode "SCHED_IDLE" = some 5 ∧
     policyCode "SCHED_DEADLINE" = some 6) ∧
    (schedFlagBit "SCHED_FLAG_RESET_ON_FORK" = some 0x01 ∧
     schedFlagBit "SCHED_FLAG_RECLAIM" = some 0x02 ∧
     schedFlagBit "SCHED_FLAG_DL_OVERRUN" = some 0x04 ∧
     schedFlagBit "SCHED_FLAG_KEEP_POLICY" = some 0x08 ∧
     schedFlagBit "SCHED_FLAG_KEEP_PARAMS" = some 0x10 ∧
     schedFlagBit "SCHED_FLAG_UTIL_CLAMP_MIN" = some 0x20 ∧
     schedFlagBit "SCHED_FLAG_UTIL_CLAMP_MAX" = some 0x40) ∧
    (∀ attr : SchedAttr, ToSchedAttr s = .ok attr →
      attr.size = sizeofSchedAttr ∧ some attr.policy = policyCode s.policy ∧
      schedFlags s.flags 0 = .ok attr.flags ∧ attr.nice = s.nice ∧
      attr.priority = uint32Of s.priority ∧ attr.runtime = s.runtime ∧
      attr.deadline = s.deadline ∧ attr.period = s.period) ∧
    (∀ l : List String, (∀ f ∈ l, (schedFlagBit f).isSome) → ∀ acc : Nat,
      schedFlags l acc =
        .ok (l.foldl (fun a f => a ||| (schedFlagBit f).getD 0) acc)) ∧
    (∀ l₂ : List String, s.flags.Perm l₂ →
      (∀ f ∈ s.flags, (schedFlagBit f).isSome) →
      ToSchedAttr s = ToSchedAttr { s with flags := l₂ }) ∧
    (policyCode s.policy = none →
      ToSchedAttr s = .error (.invalidPolicy s.policy)) ∧
    ((∃ f ∈ s.flags, schedFlagBit f = none) → policyCode s.policy ≠ none →
      ∃ f ∈ s.flags, schedFlagBit f = none ∧
        ToSchedAttr s = .error (.invalidFlag f)) := by
  refine ⟨⟨rfl, rfl, rfl, rfl, rfl, rfl, rfl⟩,
    ⟨rfl, rfl, rfl, rfl, rfl, rfl, rfl⟩, ?_, ?_, ?_, ?_, ?_⟩
  · intro attr h
    cases hp : policyCode s.policy with
    | none => rw [ToSchedAttr, hp] at h; cases h
    | some p =>
      cases hf : schedFlags s.flags 0 with
      | error e => rw [ToSchedAttr, hp, hf] at h; cases h
      | ok fl =>
        rw [ToSchedAttr, hp, hf] at h
        cases h
        exact ⟨rfl, rfl, rfl, rfl, rfl, rfl, rfl, rfl⟩
  · exact fun l hv acc => schedFlags_eq_foldl l hv acc
  · intro l₂ hperm hv
    cases hp : policyCode s.policy with
    | none => simp only [ToSchedAttr, hp]
    | some p =>
      simp only [ToSchedAttr, hp, schedFlags_perm hperm hv 0]
  · intro hp
    simp only [ToSchedAttr, hp]
  · intro hbad hp
    obtain ⟨f, hf, hfn, hres⟩ := schedFlags_err s.flags hbad 0
    cases hpc : policyCode s.policy with
    | none => exact absurd hpc hp
    | some p =>
      exact ⟨f, hf, hfn, by simp only [ToSchedAttr, hpc, hres]⟩

/-- Claim C1 counterexample: a scheduler with priority `-1` (a valid
`int32`) translates to an attribute whose priority field is
`4294967295`, not `-1` — the priority is not passed through unchanged
but reinterpreted as an unsigned 32-bit value. -/
theorem C1_counterexample :
    ToSchedAttr ⟨"SCHED_OTHER", 0, -1, [], 0, 0, 0⟩ =
      .ok ⟨56, 0, 0, 0, 4294967295, 0, 0, 0⟩ ∧
    ((4294967295 : Int) = ((-1 : Int))) = False := by
  refine ⟨by decide, by decide⟩

/-- Claim C1 witness: the error clause at an unknown policy name, the
flag-fold clause at the flag pair whose bits OR to 0x03, and the
pass-through clause at a concrete deadline-class scheduler. -/
theorem C1_to_sched_attr_witness :
    ToSchedAttr ⟨"bogus", 0, 0, [], 0, 0, 0⟩ =
      .error (.invalidPolicy "bogus") ∧
    schedFlags ["SCHED_FLAG_RESET_ON_FORK", "SCHED_FLAG_RECLAIM"] 0 =
      .ok 3 ∧
    ToSchedAttr ⟨"SCHED_DEADLINE", -2, 7, [], 5, 6, 9⟩ =
      .ok ⟨56, 6, 0, -2, 7, 5, 6, 9⟩ := by
  refine ⟨(C1_to_sched_attr ⟨"bogus", 0, 0, [], 0, 0, 0⟩).2.2.2.2.2.1
    rfl, ?_, by decide⟩
  have h := (C1_to_sched_attr ⟨"bogus", 0, 0, [], 0, 0, 0⟩).2.2.2.1
    ["SCHED_FLAG_RESET_ON_FORK", "SCHED_FLAG_RECLAIM"] (by decide) 0
  rw [h]
  decide

/-! ## Helper lemmas: hook registry -/

lemma runFrom_append_ok (exec : Command → SpecsState → Option String)
    (name : String) (st : SpecsState) (pre rest : HookList)
    (h : ∀ g ∈ pre, g.runWith exec st = none) : ∀ i : Nat,
    HookList.runFrom exec name st (pre ++ rest) i =
      HookList.runFrom exec name st rest (i + pre.length) := by
  induction pre with
  | nil => intro i; simp
  | cons g pre' ih =>
    intro i
    have hg := h g (List.mem_cons_self g pre')
    simp only [List.cons_append, HookList.runFrom, hg, List.append_eq]
    rw [ih (fun q hq => h q (List.mem_cons_of_mem _ hq)) (i + 1)]
    congr 1
    simp only [List.length_cons]
    omega

lemma setDefaultEnv_length (hooks : HookList) (env : List String) :
    (HookList.setDefaultEnv hooks env).length = hooks.length := by
  induction hooks with
  | nil => rfl
  | cons hk rest ih =>
    simp only [HookList.setDefaultEnv, List.length_cons, ih]

lemma setDefaultEnv_eq_map (hooks : HookList) (env : List String) :
    HookList.setDefaultEnv hooks env = hooks.map (fun hk =>
      match hk with
      | .command c =>
        .command { c with env := if c.env = [] then env else c.env }
      | hk => hk) := by
  induction hooks with
  | nil => rfl
  | cons hk rest ih =>
    simp only [HookList.setDefaultEnv, List.map_cons, ih]
    cases hk with
    | func f => rfl
    | command c =>
      by_cases hc : c.env = []
      · simp [hc]
      · simp [hc]

/-! ## Claim theorems: hook runner -/

/-- Claim C2: `Hooks.Run` looks the event name up in the registry (an
absent name behaves as the empty list and succeeds immediately), runs
the hooks in order, succeeds when every hook in the list succeeds, and
on the first failing hook returns that hook's error wrapped with the
event name and the failing hook's 0-based index — for every possible
suffix after the failing hook, so no later hook is ever consulted. -/
theorem C2_hooks_run (exec : Command → SpecsState → Option String)
    (hooks : Hooks) (name : String) (st : SpecsState) :
    (hLookup hooks name = none → Hooks.run exec hooks name st = none) ∧
    ((∀ g ∈ Hooks.get hooks name, g.runWith exec st = none) →
      Hooks.run exec hooks name st = none) ∧
    (∀ (pre : HookList) (hk : Hook) (post : HookList) (e : String),
      Hooks.get hooks name = pre ++ hk :: post →
      (∀ g ∈ pre, g.runWith exec st = none) →
      hk.runWith exec st = some e →
      Hooks.run exec hooks name st = some ⟨name, pre.length, e⟩) := by
  refine ⟨?_, ?_, ?_⟩
  · intro h
    rw [Hooks.run, Hooks.get, h]
    rfl
  · intro h
    rw [Hooks.run]
    have hrw := runFrom_append_ok exec name st (Hooks.get hooks name) [] h 0
    simpa [HookList.runFrom] using hrw
  · intro pre hk post e hsplit hpre hfail
    rw [Hooks.run, hsplit, runFrom_append_ok exec name st pre (hk :: post)
      hpre 0]
    simp only [HookList.runFrom, hfail, Nat.zero_add]

/-- Claim C2 witness: a registry with hooks `[A succeeds, B fails, C]`
under `"poststart"`: the run reports index 1 with event name
`"poststart"` and B's error. -/
theorem C2_hooks_run_witness :
    Hooks.run (fun _ _ => none)
      [("poststart", [Hook.func (fun _ => none),
        Hook.func (fun _ => some "boom"), Hook.func (fun _ => none)])]
      "poststart" ⟨"1.0", "cid", "created", 7, "/b"⟩ =
      some ⟨"poststart", 1, "boom"⟩ := by
  exact (C2_hooks_run (fun _ _ => none) _ "poststart" _).2.2
    [Hook.func (fun _ => none)] (Hook.func (fun _ => some "boom"))
    [Hook.func (fun _ => none)] "boom" rfl
    (by
      intro g hg
      rcases List.mem_singleton.mp hg with rfl
      rfl)
    rfl

/-- Claim C10: `SetDefaultEnv` keeps the list's length and order, gives
exactly the command hooks whose environment is unset the supplied
default environment, leaves command hooks that already declare an
environment with their own, leaves function hooks untouched, and
changes no field other than the environment. -/
theorem C10_set_default_env (hooks : HookList) (env : List String) :
    (HookList.setDefaultEnv hooks env).length = hooks.length ∧
    ∀ i : Fin hooks.length,
      (HookList.setDefaultEnv hooks env).get
        (Fin.cast (setDefaultEnv_length hooks env).symm i) =
      match hooks.get i with
      | .command c =>
        .command { c with env := if c.env = [] then env else c.env }
      | hk => hk := by
  refine ⟨setDefaultEnv_length hooks env, ?_⟩
  intro i
  rw [List.get_of_eq (setDefaultEnv_eq_map hooks env)]
  simp only [List.get_eq_getElem, List.getElem_map]
  rfl

/-- Claim C10 witness: a three-hook list — a command hook with no
environment, one with an environment, and a function hook — after
`SetDefaultEnv` has the default installed exactly in the first. -/
theorem C10_set_default_env_witness :
    (HookList.setDefaultEnv
      [Hook.command ⟨"/a", [], [], "", none⟩,
       Hook.command ⟨"/b", [], ["X=1"], "", none⟩,
       Hook.func (fun _ => none)] ["D=2"]).get
      (Fin.cast (setDefaultEnv_length _ _).symm ⟨0, by decide⟩) =
      Hook.command ⟨"/a", [], ["D=2"], "", none⟩ := by
  have h := (C10_set_default_env
    [Hook.command ⟨"/a", [], [], "", none⟩,
     Hook.command ⟨"/b", [], ["X=1"], "", none⟩,
     Hook.func (fun _ => none)] ["D=2"]).2 ⟨0, by decide⟩
  rw [h]
  rfl

/-! ## Helper lemmas: registry serialization -/

lemma hLookup_map_self {β : Type} (f : String → β) (l : List String)
    (n : String) :
    hLookup (l.map fun k => (k, f k)) n =
      if n ∈ l then some (f n) else none := by
  induction l with
  | nil => simp [hLookup]
  | cons k rest ih =>
    simp only [List.map_cons, hLookup]
    by_cases hk : k = n
    · subst hk
      simp
    · rw [if_neg hk, ih]
      by_cases hn : n ∈ rest
      · rw [if_pos hn, if_pos (List.mem_cons_of_mem _ hn)]
      · rw [if_neg hn, if_neg ?_]
        intro hmem
        rcases List.mem_cons.mp hmem with rfl | h'
        · exact hk rfl
        · exact hn h'

lemma hLookup_mem {α : Type} {l : List (String × α)} {n : String} {v : α}
    (h : hLookup l n = some v) : (n, v) ∈ l := by
  induction l with
  | nil => cases h
  | cons p rest ih =>
    obtain ⟨k, w⟩ := p
    by_cases hk : k = n
    · subst hk
      rw [hLookup, if_pos rfl] at h
      cases h
      exact List.mem_cons_self _ _
    · rw [hLookup, if_neg hk] at h
      exact List.mem_cons_of_mem _ (ih h)

lemma hLookup_nodup_mem {α : Type} {l : List (String × α)} {n : String}
    {v : α} (hnd : (l.map Prod.fst).Nodup) (h : (n, v) ∈ l) :
    hLookup l n = some v := by
  induction l with
  | nil => cases h
  | cons p rest ih =>
    obtain ⟨k, w⟩ := p
    simp only [List.map_cons, List.nodup_cons] at hnd
    rcases List.mem_cons.mp h with heq | h'
    · cases heq
      rw [hLookup, if_pos rfl]
    · by_cases hk : k = n
      · subst hk
        exact absurd (List.mem_map.mpr ⟨(k, v), h', rfl⟩) hnd.1
      · rw [hLookup, if_neg hk]
        exact ih hnd.2 h'

lemma hLookup_none {α : Type} {l : List (String × α)} {n : String}
    (h : ∀ p ∈ l, p.1 ≠ n) : hLookup l n = none := by
  induction l with
  | nil => rfl
  | cons p rest ih =>
    obtain ⟨k, w⟩ := p
    rw [hLookup, if_neg (h (k, w) (List.mem_cons_self _ _))]
    exact ih (fun q hq => h q (List.mem_cons_of_mem _ hq))

lemma hLookup_unmarshal_none {state : List (String × List Command)}
    {n : String} (h : ∀ p ∈ state, p.1 ≠ n) :
    hLookup (Hooks.unmarshal state) n = none := by
  apply hLookup_none
  intro p hp
  obtain ⟨q, hq, rfl⟩ := List.mem_map.mp hp
  exact h q (List.mem_filter.mp hq).1

lemma hLookup_unmarshal (state : List (String × List Command))
    (hnd : (state.map Prod.fst).Nodup) (n : String) :
    hLookup (Hooks.unmarshal state) n =
      (hLookup state n).bind (fun cmds =>
        if cmds.isEmpty then none else some (cmds.map Hook.command)) := by
  induction state with
  | nil => rfl
  | cons p rest ih =>
    obtain ⟨k, v⟩ := p
    simp only [List.map_cons, List.nodup_cons] at hnd
    rw [Hooks.unmarshal, List.filter_cons]
    by_cases hk : k = n
    · subst hk
      rw [hLookup, if_pos rfl, Option.some_bind]
      by_cases hv : v.isEmpty
      · rw [if_neg (by simp [hv]), if_pos hv]
        exact hLookup_unmarshal_none
          (fun p hp hpk => hnd.1 (hpk ▸ List.mem_map.mpr ⟨p, hp, rfl⟩))
      · rw [if_pos (by simp [hv]), if_neg hv, List.map_cons, hLookup,
          if_pos rfl]
    · rw [hLookup, if_neg hk]
      by_cases hv : (!v.isEmpty) = true
      · rw [if_pos hv, List.map_cons, hLookup, if_neg hk]
        exact ih hnd.2
      · rw [if_neg hv]
        exact ih hnd.2

lemma marshal_keys (h : Hooks) :
    (Hooks.marshal h).map Prod.fst = eventNames := rfl

lemma serialize_all_command {l : HookList}
    (hc : ∀ hk ∈ l, (Hook.commandOf hk).isSome) :
    (serialize l).map Hook.command = l := by
  induction l with
  | nil => rfl
  | cons hk rest ih =>
    have h1 := hc hk (List.mem_cons_self _ _)
    cases hk with
    | func f => simp [Hook.commandOf] at h1
    | command c =>
      simp only [serialize, List.filterMap_cons, Hook.commandOf,
        List.map_cons]
      exact congrArg (Hook.command c :: ·)
        (ih (fun g hg => hc g (List.mem_cons_of_mem _ hg)))

/-! ## Claim theorems: registry serialization -/

/-- Claim C7: `MarshalJSON` always emits exactly the six fixed event
names, in order; the entry of each name is the command-hook records of
that event's list, in list order, with every function hook skipped and
never failing: a function hook at the head of a list is dropped and a
command hook at the head is kept, and marshalling is total by
construction. -/
theorem C7_marshal_shape (h : Hooks) :
    (Hooks.marshal h).map Prod.fst = eventNames ∧
    (∀ n ∈ eventNames,
      hLookup (Hooks.marshal h) n = some (serialize (Hooks.get h n))) ∧
    (∀ (f : SpecsState → Option String) (rest : HookList),
      serialize (Hook.func f :: rest) = serialize rest) ∧
    (∀ (c : Command) (rest : HookList),
      serialize (Hook.command c :: rest) = c :: serialize rest) := by
  refine ⟨marshal_keys h, ?_, ?_, ?_⟩
  · intro n hn
    rw [Hooks.marshal, hLookup_map_self, if_pos hn]
  · intro f rest
    simp [serialize, List.filterMap_cons, Hook.commandOf]
  · intro c rest
    simp [serialize, List.filterMap_cons, Hook.commandOf]

/-- Claim C7 witness: a registry with one function hook and one command
hook under `"poststart"` marshals that event to exactly the command
hook's record, with no error. -/
theorem C7_marshal_shape_witness :
    hLookup (Hooks.marshal [("poststart",
      [Hook.func (fun _ => none),
       Hook.command ⟨"/bin/hook", ["a"], [], "", none⟩])]) "poststart" =
      some [⟨"/bin/hook", ["a"], [], "", none⟩] := by
  have h := (C7_marshal_shape [("poststart",
    [Hook.func (fun _ => none),
     Hook.command ⟨"/bin/hook", ["a"], [], "", none⟩])]).2.1 "poststart"
    (by decide)
  rw [h]
  rfl

/-- Claim C6 (amended): marshalling then unmarshalling a registry built
purely from command hooks returns a registry with the same lookups
(per-event order preserved), provided every event name is among the six
fixed names and every event's list is non-empty; an event with zero
entries in the serialized record is omitted from the unmarshalled
registry rather than stored as an empty list. -/
theorem C6_roundtrip :
    (∀ (h : Hooks),
      (∀ p ∈ h, p.1 ∈ eventNames) →
      (∀ p ∈ h, p.2 ≠ []) →
      (∀ p ∈ h, ∀ hk ∈ p.2, (Hook.commandOf hk).isSome) →
      ∀ n : String,
        hLookup (Hooks.unmarshal (Hooks.marshal h)) n = hLookup h n) ∧
    (∀ (state : List (String × List Command)),
      (state.map Prod.fst).Nodup →
      ∀ p ∈ state, p.2 = [] →
        hLookup (Hooks.unmarshal state) p.1 = none) := by
  constructor
  · intro h hkeys hne hcmd n
    have hnd : ((Hooks.marshal h).map Prod.fst).Nodup := by
      rw [marshal_keys h]
      decide
    rw [hLookup_unmarshal (Hooks.marshal h) hnd n, Hooks.marshal,
      hLookup_map_self]
    by_cases hn : n ∈ eventNames
    · rw [if_pos hn, Option.some_bind]
      cases hl : hLookup h n with
      | none =>
        rw [Hooks.get, hl]
        simp [serialize]
      | some l =>
        have hmem := hLookup_mem hl
        have hlne : l ≠ [] := hne (n, l) hmem
        have hlc : ∀ hk ∈ l, (Hook.commandOf hk).isSome :=
          fun hk hhk => hcmd (n, l) hmem hk hhk
        have hser : (serialize l).map Hook.command = l :=
          serialize_all_command hlc
        have hsne : ¬ (serialize l).isEmpty = true := by
          intro hempty
          apply hlne
          rw [← hser, List.isEmpty_iff.mp hempty]
          rfl
        rw [Hooks.get, hl, Option.getD_some, if_neg hsne, hser]
    · rw [if_neg hn, Option.none_bind]
      cases hl : hLookup h n with
      | none => rfl
      | some l => exact absurd (hkeys (n, l) (hLookup_mem hl)) hn
  · intro state hnd p hp hpe
    rw [hLookup_unmarshal state hnd,
      hLookup_nodup_mem hnd (show (p.1, p.2) ∈ state from hp),
      Option.some_bind, hpe]
    simp

/-- Claim C6 counterexample: a registry storing the fixed event name
`"prestart"` with an empty list, and a registry storing a command hook
under the non-fixed event name `"foo"`, both marshal/unmarshal to a
registry that no longer contains the key — the round trip is not
value-equal to the original for every command-hook registry. -/
theorem C6_counterexample :
    (hLookup (Hooks.unmarshal (Hooks.marshal
        [("prestart", [])])) "prestart" = none ∧
      hLookup ([("prestart", [])] : Hooks) "prestart" = some []) ∧
    (hLookup (Hooks.unmarshal (Hooks.marshal
        [("foo", [Hook.command ⟨"/bin/hook", [], [], "", none⟩])]))
        "foo" = none ∧
      hLookup ([("foo", [Hook.command ⟨"/bin/hook", [], [], "", none⟩])] :
        Hooks) "foo" =
        some [Hook.command ⟨"/bin/hook", [], [], "", none⟩]) :=
  ⟨⟨rfl, rfl⟩, ⟨rfl, rfl⟩⟩

/-- Claim C6 witness: the round-trip clause applied to a registry with
one command hook under `"poststart"`, and the omission clause applied
to a serialized record with an empty `"poststart"` entry. -/
theorem C6_roundtrip_witness :
    hLookup (Hooks.unmarshal (Hooks.marshal
      [("poststart", [Hook.command ⟨"/bin/hook", [], [], "", none⟩])]))
      "poststart" =
      hLookup [("poststart",
        [Hook.command ⟨"/bin/hook", [], [], "", none⟩])] "poststart" ∧
    hLookup (Hooks.unmarshal [("poststart", ([] : List Command))])
      "poststart" = none := by
  constructor
  · exact C6_roundtrip.1
      [("poststart", [Hook.command ⟨"/bin/hook", [], [], "", none⟩])]
      (by intro p hp; rcases List.mem_singleton.mp hp with rfl; decide)
      (by intro p hp; rcases List.mem_singleton.mp hp with rfl; simp)
      (by
        intro p hp
        rcases List.mem_singleton.mp hp with rfl
        intro hk hhk
        rcases List.mem_singleton.mp hhk with rfl
        rfl)
      "poststart"
  · exact C6_roundtrip.2 [("poststart", ([] : List Command))] (by decide)
      ("poststart", ([] : List Command)) (List.mem_singleton.mpr rfl) rfl

/-! ## Claim theorems: command hook execution -/

/-- Claim C3: once the process of a command hook has been started,
`Command.Run` races process exit against the configured timeout.  If
the process exits first (or always, when its exit is observed before
the timer), the exit error — if any — annotated with the captured
stdout/stderr is returned, after start and exit were observed.  If the
timer fires first, the process is killed and its exit still awaited
before returning, and the result is the timeout error carrying the
configured duration.  With no timeout configured only process exit is
awaited, whatever the timer oracle says: the timer channel is nil and
can never win. -/
theorem C3_command_run (c : Command) (w : ProcBehavior)
    (hm : w.marshalErr = none) (hs : w.startErr = none) :
    (c.timeout = none →
      Command.run c w =
        (w.exitErr.map (fun e => .execFail e w.stdout w.stderr),
         [.started, .reaped])) ∧
    (∀ d : Int, c.timeout = some d → w.timerFirst = false →
      Command.run c w =
        (w.exitErr.map (fun e => .execFail e w.stdout w.stderr),
         [.started, .reaped])) ∧
    (∀ d : Int, c.timeout = some d → w.timerFirst = true →
      Command.run c w =
        (some (.timeoutFail d), [.started, .killed, .reaped])) := by
  refine ⟨?_, ?_, ?_⟩
  · intro ht
    rw [Command.run, hm, hs, ht]
  · intro d ht htf
    rw [Command.run, hm, hs, ht]
    simp [htf]
  · intro d ht htf
    rw [Command.run, hm, hs, ht]
    simp [htf]

/-- Claim C3 witness: a hook with a 1-second timeout whose timer fires
first is killed, reaped and reported as a timeout; the same hook with
the process exiting first reports the annotated exit error; a hook with
no timeout ignores the timer oracle entirely. -/
theorem C3_command_run_witness :
    Command.run ⟨"/bin/hook", [], [], "", some 1000000000⟩
      ⟨none, none, some "exit status 1", "out", "err", true⟩ =
      (some (.timeoutFail 1000000000), [.started, .killed, .reaped]) ∧
    Command.run ⟨"/bin/hook", [], [], "", some 1000000000⟩
      ⟨none, none, some "exit status 1", "out", "err", false⟩ =
      (some (.execFail "exit status 1" "out" "err"),
       [.started, .reaped]) ∧
    Command.run ⟨"/bin/hook", [], [], "", none⟩
      ⟨none, none, none, "", "", true⟩ = (none, [.started, .reaped]) := by
  refine ⟨?_, ?_, ?_⟩
  · exact (C3_command_run ⟨"/bin/hook", [], [], "", some 1000000000⟩
      ⟨none, none, some "exit status 1", "out", "err", true⟩ rfl rfl).2.2
      1000000000 rfl rfl
  · exact (C3_command_run ⟨"/bin/hook", [], [], "", some 1000000000⟩
      ⟨none, none, some "exit status 1", "out", "err", false⟩ rfl rfl).2.1
      1000000000 rfl rfl
  · exact (C3_command_run ⟨"/bin/hook", [], [], "", none⟩
      ⟨none, none, none, "", "", true⟩ rfl rfl).1 rfl

end Configs
